import Mathlib

/-!
A shallow embedding of `git-branch-delete` (sources:
`src/git-branch-delete.ts`, plus the near-duplicate older variant).
Pure parts (parsing, sorting, command construction, the directory walk)
are embedded as Lean functions; the effectful orchestrator `main` is
embedded as a function of an environment of oracle answers (results of
the external git calls and the two interactive prompts), returning the
exit code together with which collaborators were invoked.

JavaScript string primitives (`split`, `trim`, the `/^[\s*]+/` strip,
`startsWith`) are mirrored by executable functions over `List Char`
(the inputs of interest are ASCII, where JavaScript's and these
functions' whitespace classes agree).  Directories are modelled as the
list of path components with the deepest component first, so the
filesystem root `/` is `[]` and `path.resolve(dir, "..")` is
`List.tail`.
-/

/-- `interface GitBranch` from `src/git-branch-delete.ts`. -/
structure GitBranch where
  name : String
  lastCommitRelative : String
  lastCommit : String
  isCurrent : Bool
deriving Repr, DecidableEq

/-- `interface BranchChoice` from `src/git-branch-delete.ts`. -/
structure BranchChoice where
  name : String
  message : String
  value : String
deriving Repr, DecidableEq

/-- The character class `[\s*]` of the regex in
`prefix.replace(/^[\s*]+/, "")` (ASCII whitespace plus the star
current-branch marker). -/
def jsSpaceStar (c : Char) : Bool :=
  c == ' ' || c == '\t' || c == '\n' || c == '\r' || c == '\x0b' || c == '\x0c' || c == '*'

/-- ASCII whitespace as trimmed by JavaScript `String.prototype.trim`. -/
def jsWs (c : Char) : Bool :=
  c == ' ' || c == '\t' || c == '\n' || c == '\r' || c == '\x0b' || c == '\x0c'

/-- `String.prototype.trim`: remove leading and trailing whitespace. -/
def jsTrim (s : List Char) : List Char :=
  ((s.dropWhile jsWs).reverse.dropWhile jsWs).reverse

/-- Worker for `jsSplit`: scan left to right, cutting at each leftmost,
non-overlapping occurrence of `sep`.  `fuel` only bounds the recursion;
`jsSplit` always supplies enough of it for the fuel-exhausted arm to be
unreachable when `sep` is non-empty. -/
def splitGo (sep : List Char) : Nat → List Char → List Char → List (List Char)
  | _, acc, [] => [acc.reverse]
  | 0, acc, rest => [acc.reverse ++ rest]
  | fuel + 1, acc, c :: rest =>
    if sep.isPrefixOf (c :: rest) then
      acc.reverse :: splitGo sep fuel [] ((c :: rest).drop sep.length)
    else
      splitGo sep fuel (c :: acc) rest

/-- `String.prototype.split` with a non-empty plain-string separator:
the result always has at least one element, `"".split(sep)` is `[""]`,
and a trailing separator yields a trailing empty field. -/
def jsSplit (sep s : List Char) : List (List Char) :=
  splitGo sep s.length [] s

/-- Whether `sep` occurs as a contiguous subsequence of `s` (i.e. the
separator appears somewhere in the string). -/
def containsSeq (sep s : List Char) : Bool :=
  match s with
  | [] => sep.isPrefixOf []
  | _ :: rest => sep.isPrefixOf s || containsSeq sep rest

/-- The per-line parsing step of `getGitBranches` in
`src/git-branch-delete.ts` (lines 42-49):
`const [prefix, ...parts] = line.split(":::")`, the head field carries
the `*` current-branch marker and the name
(`prefix.replace(/^[\s*]+/, "")`), and the remaining fields are the
relative and absolute commit times, with destructuring defaults
`"Unknown"` and `""` when absent. -/
def parseLine (line : String) : GitBranch :=
  let fields := jsSplit ":::".data line.data
  let pre := fields.headD []
  let parts := fields.tail
  { name := ⟨pre.dropWhile jsSpaceStar⟩
    lastCommitRelative := ⟨parts.headD "Unknown".data⟩
    lastCommit := ⟨parts.tail.headD []⟩
    isCurrent := "*".data.isPrefixOf pre }

/-- The parsing pipeline of `getGitBranches` in `src/git-branch-delete.ts`
(lines 39-50) applied to the enumeration command's stdout:
`stdout.trim().split("\n").map(parseLine).filter(branch => branch.name)`. -/
def getGitBranchesParse (stdout : String) : List GitBranch :=
  ((jsSplit "\n".data (jsTrim stdout.data)).map fun l => parseLine ⟨l⟩).filter
    fun b => b.name != ""

/-- The comparator `(a, b) => a.name.localeCompare(b.name)` of
`selectBranchNames`, modelled as code-point order on the names. -/
def nameLe (a b : GitBranch) : Bool :=
  decide (a.name ≤ b.name)

/-- The comparator `(a, b) => Number(b.isCurrent) - Number(a.isCurrent)`
of `selectBranchNames`: `a` may precede `b` unless `b` is current and
`a` is not. -/
def curLe (a b : GitBranch) : Bool :=
  a.isCurrent || !b.isCurrent

/-- The two stable sorts applied by `selectBranchNames` in
`src/git-branch-delete.ts` (lines 57-59): by name, then current branch
first (JavaScript `Array.prototype.sort` is stable, as is
`List.mergeSort`). -/
def sortedBranches (bs : List GitBranch) : List GitBranch :=
  (bs.mergeSort nameLe).mergeSort curLe

/-- The choice list built by `selectBranchNames` (lines 57-75): the
destructuring `const [current, ...others] = ...` drops the head of the
sorted list, and each remaining branch becomes a choice displaying
`"name (relative-time)"` and carrying the bare name as its value. -/
def selectChoices (bs : List GitBranch) : List BranchChoice :=
  match sortedBranches bs with
  | [] => []
  | _ :: others =>
    others.map fun b => ⟨b.name, b.name ++ " (" ++ b.lastCommitRelative ++ ")", b.name⟩

/-- `confirmDeletion` in `src/git-branch-delete.ts` (lines 91-111), with
the prompt's outcome passed explicitly (`none` models a cancelled
prompt, caught and turned into `false`).  The second component records
whether the prompt was presented at all. -/
def confirmDeletion (names : List String) (answer : Option String) : Bool × Bool :=
  if names = [] then (false, false)
  else
    match answer with
    | none => (false, true)
    | some s => (s == "yes", true)

/-- The regex `/^(yes|no)$/` used by the confirmation prompt's
`validate` callback. -/
def validConfirmInput (s : String) : Bool :=
  s == "yes" || s == "no"

/-- The shell quoting `` `'${b}'` `` applied to each branch name by
`deleteBranches`. -/
def quoteArg (b : String) : String :=
  "'" ++ b ++ "'"

/-- `Array.prototype.join(" ")`. -/
def joinSpace : List String → String
  | [] => ""
  | [x] => x
  | x :: y :: xs => x ++ " " ++ joinSpace (y :: xs)

/-- The single batched command string built by `deleteBranches` in
`src/git-branch-delete.ts` (line 118):
`` `git branch -D ${branches.map(b => `'${b}'`).join(" ")}` ``. -/
def deleteCmd (names : List String) : String :=
  "git branch -D " ++ joinSpace (names.map quoteArg)

/-- The list of external invocations issued by `deleteBranches` in
`src/git-branch-delete.ts` (lines 113-125): none when the name list is
empty (early return), otherwise exactly one batched `execAsync` call. -/
def deleteBranchesCmds (names : List String) : List String :=
  if names = [] then [] else [deleteCmd names]

/-- `findGitRoot` in `src/git-branch-delete.ts` (lines 25-32): walk from
the current directory upward with `dir = resolve(dir, "..")`, returning
`true` on the first level holding `.git`; the loop guard `dir !== "/"`
is tested before each check, so the walk stops when the root is reached
and the root itself is never checked.  `hasGit d` models
`existsSync(resolve(d, ".git"))`. -/
def findGitRoot (hasGit : List String → Bool) : List String → Bool
  | [] => false
  | d :: rest => if hasGit (d :: rest) then true else findGitRoot hasGit rest

/-- `isGitRepository` in the older variant (lines 15-27): the same
upward walk, but each level is tested for `.git` before the root check,
so the root itself is also examined. -/
def isGitRepository (hasGit : List String → Bool) : List String → Bool
  | [] => hasGit []
  | d :: rest => if hasGit (d :: rest) then true else isGitRepository hasGit rest

/-- The oracle answers one run of `main` can observe: whether the
repository walk found `.git`, the result of the branch-enumeration
call, the multiselect prompt's outcome (`none` = cancelled), the
confirmation prompt's outcome (`none` = cancelled), and the result of
the batched deletion call. -/
structure Env where
  gitRoot : Bool
  listResult : Except String (List GitBranch)
  selectAnswer : Option (List String)
  confirmAnswer : Option String
  deleteResult : Except String Unit

/-- What one run of `main` did: the process exit code and which
collaborators were invoked, with the deletion commands issued. -/
structure RunResult where
  exitCode : Nat
  selectorInvoked : Bool
  confirmerInvoked : Bool
  deleterInvoked : Bool
  deleteCmds : List String
deriving Repr, DecidableEq

/-- The early-exit test `branches.length === 1 && branches[0].isCurrent`
of `main`. -/
def nothingToDo (branches : List GitBranch) : Bool :=
  match branches with
  | [b] => b.isCurrent
  | _ => false

/-- `main` in `src/git-branch-delete.ts` (lines 127-161) over the
oracle environment.  A caught top-level error calls `process.exit(1)`;
a cancelled multiselect prompt calls `process.exit(0)` inside
`selectBranchNames`; every other return path ends the process normally
with code 0. -/
def mainRun (env : Env) : RunResult :=
  if !env.gitRoot then ⟨0, false, false, false, []⟩
  else
    match env.listResult with
    | .error _ => ⟨1, false, false, false, []⟩
    | .ok branches =>
      if nothingToDo branches then ⟨0, false, false, false, []⟩
      else
        match env.selectAnswer with
        | none => ⟨0, true, false, false, []⟩
        | some sel =>
          if sel = [] then ⟨0, true, false, false, []⟩
          else if (confirmDeletion sel env.confirmAnswer).1 then
            match env.deleteResult with
            | .error _ => ⟨1, true, true, true, deleteBranchesCmds sel⟩
            | .ok _ => ⟨0, true, true, true, deleteBranchesCmds sel⟩
          else ⟨0, true, true, false, []⟩

/-- A two-branch fixture: `main` is current, `feature` is not. -/
def branchMain : GitBranch :=
  ⟨"main", "2 hours ago", "2024-01-01T00:00:00+0000", true⟩

/-- The non-current branch of the two-branch fixture. -/
def branchFeature : GitBranch :=
  ⟨"feature", "3 days ago", "2023-12-29T00:00:00+0000", false⟩

/-- The two-branch fixture listing. -/
def listingTwo : List GitBranch :=
  [branchMain, branchFeature]

/-- A run in a repository where the user selects `feature`, confirms
`yes`, and the deletion call succeeds. -/
def envDeleteOk : Env :=
  ⟨true, .ok listingTwo, some ["feature"], some "yes", .ok ()⟩

/-- A run where the user selects `feature` and then answers `no`. -/
def envDeclined : Env :=
  ⟨true, .ok listingTwo, some ["feature"], some "no", .ok ()⟩

/-- A run where the user selects `feature`, confirms `yes`, and the
deletion call fails. -/
def envDeleteErr : Env :=
  ⟨true, .ok listingTwo, some ["feature"], some "yes", .error "boom"⟩

/-- A run where the branch-enumeration call fails. -/
def envListErr : Env :=
  ⟨true, .error "boom", none, none, .ok ()⟩

/-- A run in a repository whose only branch is the current one. -/
def envSoloCurrent : Env :=
  ⟨true, .ok [branchMain], none, none, .ok ()⟩

example :
    parseLine "*main:::2 hours ago:::2024-01-01T00:00:00+0000" =
      ⟨"main", "2 hours ago", "2024-01-01T00:00:00+0000", true⟩ := by decide

example :
    getGitBranchesParse
      "*:::main:::2 hours ago:::2024-01-01T00:00:00+0000\n :::feature:::3 days ago:::2023-12-29T00:00:00+0000\n" =
      [] := by decide

example :
    getGitBranchesParse
      "*main:::2 hours ago:::2024-01-01T00:00:00+0000\n feature:::3 days ago:::2023-12-29T00:00:00+0000\n" =
      [⟨"main", "2 hours ago", "2024-01-01T00:00:00+0000", true⟩,
       ⟨"feature", "3 days ago", "2023-12-29T00:00:00+0000", false⟩] := by decide

example : deleteCmd ["a", "b"] = "git branch -D 'a' 'b'" := by decide

example : findGitRoot (fun d => d == []) ["a"] = false := by decide

example : isGitRepository (fun d => d == []) ["a"] = true := by decide

/-- C1 (counterexample): on the spec's synthetic enumeration output,
where the current-branch marker is separated from the name by the
`":::"` delimiter, `getGitBranches` of `src/git-branch-delete.ts` does
NOT produce the two claimed records: the whole first field of each line
is taken as the marker-plus-name, and stripping `/^[\s*]+/` from `"*"`
(resp. `" "`) leaves an empty name, so both lines are discarded and the
result is the empty list. -/
theorem c1_roundTrip_counterexample :
    getGitBranchesParse
        "*:::main:::2 hours ago:::2024-01-01T00:00:00+0000\n :::feature:::3 days ago:::2023-12-29T00:00:00+0000\n" ≠
      [⟨"main", "2 hours ago", "2024-01-01T00:00:00+0000", true⟩,
       ⟨"feature", "3 days ago", "2023-12-29T00:00:00+0000", false⟩] := by
  decide

/-- C1 (amended): with the marker directly prefixed to the name, as the
enumeration command of `src/git-branch-delete.ts` actually formats it
(`%(then)*%(else) %(end)%(refname:short):::...`), the parsing step
produces exactly the two records of the claim, in order. -/
theorem c1_roundTrip :
    getGitBranchesParse
        "*main:::2 hours ago:::2024-01-01T00:00:00+0000\n feature:::3 days ago:::2023-12-29T00:00:00+0000\n" =
      [⟨"main", "2 hours ago", "2024-01-01T00:00:00+0000", true⟩,
       ⟨"feature", "3 days ago", "2023-12-29T00:00:00+0000", false⟩] := by
  decide

/-- C6: `confirmDeletion` returns `false` without presenting a prompt
when the name list is empty; otherwise it returns `true` exactly when
the prompt's answer is `"yes"`, and a cancelled prompt (`none`) yields
`false`, never an error. -/
theorem c6_confirmDeletion_spec (names : List String) (answer : Option String) :
    confirmDeletion [] answer = (false, false)
    ∧ (names ≠ [] → ((confirmDeletion names answer).1 = true ↔ answer = some "yes"))
    ∧ (answer = none → (confirmDeletion names answer).1 = false) := by
  refine ⟨rfl, fun h => ?_, fun h => ?_⟩
  · unfold confirmDeletion
    simp only [if_neg h]
    cases answer with
    | none => simp
    | some s => simp [beq_iff_eq]
  · unfold confirmDeletion
    subst h
    by_cases hn : names = [] <;> simp [hn]

/-- C6 witness: at the concrete fixture, the no-op short-circuit and
the `"yes"` equivalence. -/
theorem c6_witness :
    confirmDeletion [] (some "yes") = (false, false)
    ∧ ((confirmDeletion ["feature"] (some "yes")).1 = true ↔
        (some "yes" : Option String) = some "yes") :=
  ⟨(c6_confirmDeletion_spec ["feature"] (some "yes")).1,
   (c6_confirmDeletion_spec ["feature"] (some "yes")).2.1 (by decide)⟩

/-- C7: when the enumeration yields exactly one branch and it is the
current one, `main` stops at the nothing-to-do early exit with code 0,
invoking neither the Selector, nor the Confirmer, nor the Deleter. -/
theorem c7_earlyExit (env : Env) (b : GitBranch)
    (hroot : env.gitRoot = true)
    (hlist : env.listResult = .ok [b])
    (hcur : b.isCurrent = true) :
    mainRun env = ⟨0, false, false, false, []⟩ := by
  unfold mainRun
  rw [hroot, hlist]
  simp [nothingToDo, hcur]

/-- C7 witness: the early exit on the one-current-branch fixture. -/
theorem c7_witness : mainRun envSoloCurrent = ⟨0, false, false, false, []⟩ :=
  c7_earlyExit envSoloCurrent branchMain rfl rfl rfl

/-- C9: the parsing step of `getGitBranches` is a total function of the
stdout string (it is a Lean function, so it never raises), and every
record it returns has a non-empty name, thanks to the final
`.filter(branch => branch.name)`. -/
theorem c9_parsed_names_nonempty (s : String) (b : GitBranch)
    (hb : b ∈ getGitBranchesParse s) : b.name ≠ "" := by
  unfold getGitBranchesParse at hb
  have := List.of_mem_filter hb
  simpa using this

/-- C9 witness: a record parsed from a concrete stdout, with its
non-empty name obtained from the theorem. -/
theorem c9_witness :
    (⟨"main", "2 hours ago", "2024-01-01T00:00:00+0000", true⟩ : GitBranch) ∈
        getGitBranchesParse "*main:::2 hours ago:::2024-01-01T00:00:00+0000"
    ∧ (⟨"main", "2 hours ago", "2024-01-01T00:00:00+0000", true⟩ : GitBranch).name ≠ "" :=
  ⟨by decide,
   c9_parsed_names_nonempty "*main:::2 hours ago:::2024-01-01T00:00:00+0000" _ (by decide)⟩

/-- C2: in every run of `main`, the Deleter is invoked only after
`confirmDeletion` returned `true` for exactly the selected set (and
then the issued commands are those for that set); whenever the
Confirmer returns `false` for the selected set, the Deleter is not
invoked and no deletion command is issued. -/
theorem c2_confirm_before_delete (env : Env) :
    ((mainRun env).deleterInvoked = true →
      ∃ sel, env.selectAnswer = some sel ∧ sel ≠ [] ∧
        (confirmDeletion sel env.confirmAnswer).1 = true ∧
        (mainRun env).deleteCmds = deleteBranchesCmds sel)
    ∧ (∀ sel, env.selectAnswer = some sel →
        (confirmDeletion sel env.confirmAnswer).1 = false →
        (mainRun env).deleterInvoked = false ∧ (mainRun env).deleteCmds = []) := by
  obtain ⟨groot, lres, sans, cans, dres⟩ := env
  cases groot with
  | false => simp [mainRun]
  | true =>
    cases lres with
    | error e => simp [mainRun]
    | ok bs =>
      cases hnd : nothingToDo bs with
      | true => simp [mainRun, hnd]
      | false =>
        cases sans with
        | none => simp [mainRun, hnd]
        | some sel =>
          by_cases hsel : sel = []
          · simp [mainRun, hnd, hsel]
          · cases hc : (confirmDeletion sel cans).1 with
            | false =>
              cases dres with
              | error e => simp [mainRun, hnd, hsel, hc]
              | ok u => simp [mainRun, hnd, hsel, hc]
            | true =>
              cases dres with
              | error e =>
                refine ⟨fun _ => ⟨sel, rfl, hsel, hc, ?_⟩, fun sel' hsel' hc' => ?_⟩
                · simp [mainRun, hnd, hsel, hc]
                · rw [Option.some.injEq] at hsel'
                  subst hsel'
                  rw [hc'] at hc
                  cases hc
              | ok u =>
                refine ⟨fun _ => ⟨sel, rfl, hsel, hc, ?_⟩, fun sel' hsel' hc' => ?_⟩
                · simp [mainRun, hnd, hsel, hc]
                · rw [Option.some.injEq] at hsel'
                  subst hsel'
                  rw [hc'] at hc
                  cases hc

/-- C2 witness: a confirmed run does issue the batched command for the
selected set, and the declined run issues nothing. -/
theorem c2_witness :
    (∃ sel, envDeleteOk.selectAnswer = some sel ∧ sel ≠ [] ∧
        (confirmDeletion sel envDeleteOk.confirmAnswer).1 = true ∧
        (mainRun envDeleteOk).deleteCmds = deleteBranchesCmds sel)
    ∧ ((mainRun envDeclined).deleterInvoked = false ∧ (mainRun envDeclined).deleteCmds = []) :=
  ⟨(c2_confirm_before_delete envDeleteOk).1 (by decide),
   (c2_confirm_before_delete envDeclined).2 ["feature"] rfl (by decide)⟩

/-- C3: `main` exits with code 0 on every non-error termination path
(not a repository, nothing to do, cancelled selection prompt, empty
selection, declined or cancelled confirmation, successful deletion),
and with the non-zero code 1 exactly when the enumeration call fails
(`ListError`) or the reached deletion call fails (`DeletionError`). -/
theorem c3_exit_codes (env : Env) :
    (env.gitRoot = false → (mainRun env).exitCode = 0)
    ∧ (∀ e, env.gitRoot = true → env.listResult = .error e →
        (mainRun env).exitCode = 1)
    ∧ (∀ bs, env.gitRoot = true → env.listResult = .ok bs → nothingToDo bs = true →
        (mainRun env).exitCode = 0)
    ∧ (∀ bs, env.gitRoot = true → env.listResult = .ok bs → nothingToDo bs = false →
        env.selectAnswer = none → (mainRun env).exitCode = 0)
    ∧ (∀ bs, env.gitRoot = true → env.listResult = .ok bs → nothingToDo bs = false →
        env.selectAnswer = some [] → (mainRun env).exitCode = 0)
    ∧ (∀ bs sel, env.gitRoot = true → env.listResult = .ok bs → nothingToDo bs = false →
        env.selectAnswer = some sel → sel ≠ [] →
        (confirmDeletion sel env.confirmAnswer).1 = false →
        (mainRun env).exitCode = 0)
    ∧ (∀ bs sel, env.gitRoot = true → env.listResult = .ok bs → nothingToDo bs = false →
        env.selectAnswer = some sel → sel ≠ [] →
        (confirmDeletion sel env.confirmAnswer).1 = true →
        ((env.deleteResult = .ok () → (mainRun env).exitCode = 0)
          ∧ ∀ e, env.deleteResult = .error e → (mainRun env).exitCode = 1)) := by
  obtain ⟨groot, lres, sans, cans, dres⟩ := env
  refine ⟨fun h => ?_, fun e h he => ?_, fun bs h hbs hnd => ?_, fun bs h hbs hnd hsa => ?_,
    fun bs h hbs hnd hsa => ?_, fun bs sel h hbs hnd hsa hne hc => ?_,
    fun bs sel h hbs hnd hsa hne hc => ⟨fun hd => ?_, fun e hd => ?_⟩⟩ <;>
    subst h <;> simp_all [mainRun]

/-- C3 witness: concrete runs hitting the successful-deletion path
(code 0), the list-error path and the deletion-error path (code 1). -/
theorem c3_witness :
    (mainRun envDeleteOk).exitCode = 0
    ∧ (mainRun envListErr).exitCode = 1
    ∧ (mainRun envDeleteErr).exitCode = 1 :=
  ⟨((c3_exit_codes envDeleteOk).2.2.2.2.2.2 listingTwo ["feature"] rfl rfl (by decide) rfl
      (by decide) (by decide)).1 rfl,
   (c3_exit_codes envListErr).2.1 "boom" rfl rfl,
   ((c3_exit_codes envDeleteErr).2.2.2.2.2.2 listingTwo ["feature"] rfl rfl (by decide) rfl
      (by decide) (by decide)).2 "boom" rfl⟩

/-- When the separator occurs nowhere in the scanned text, `splitGo`
only accumulates and yields a single field, whatever the fuel. -/
theorem splitGo_of_no_sep (sep : List Char) :
    ∀ (s : List Char) (fuel : Nat) (acc : List Char),
      containsSeq sep s = false →
      splitGo sep fuel acc s = [acc.reverse ++ s] := by
  intro s
  induction s with
  | nil =>
    intro fuel acc _
    cases fuel <;> simp [splitGo]
  | cons c rs ih =>
    intro fuel acc h
    rw [containsSeq, Bool.or_eq_false_iff] at h
    obtain ⟨hpre, hrest⟩ := h
    cases fuel with
    | zero => simp [splitGo]
    | succ n =>
      rw [splitGo, if_neg (by simp [hpre]), ih n (c :: acc) hrest]
      simp

/-- `String.prototype.split` on a string not containing the separator
returns the whole string as the single field. -/
theorem jsSplit_of_no_sep (sep s : List Char) (h : containsSeq sep s = false) :
    jsSplit sep s = [s] := by
  rw [jsSplit, splitGo_of_no_sep sep s s.length [] h]
  simp

/-- C8: for every enumeration-output line in which the `":::"`
delimiter does not occur (so the relative-time field is missing), the
parsed record's `lastCommitRelative` is the sentinel `"Unknown"`,
thanks to the destructuring default
`const [lastCommitRelative = "Unknown", ...] = parts`. -/
theorem c8_missing_relative_is_unknown (line : String)
    (h : containsSeq ":::".data line.data = false) :
    (parseLine line).lastCommitRelative = "Unknown" := by
  unfold parseLine
  rw [jsSplit_of_no_sep _ _ h]
  rfl

/-- C8 witness: a line with no delimiter parses with the `"Unknown"`
sentinel. -/
theorem c8_witness :
    containsSeq ":::".data "*main".data = false
    ∧ (parseLine "*main").lastCommitRelative = "Unknown" :=
  ⟨by decide, c8_missing_relative_is_unknown "*main" (by decide)⟩

/-- Every member of a space-joined list appears contiguously in the
joined string. -/
theorem joinSpace_mem_infix :
    ∀ (l : List String) (b : String), b ∈ l →
      ∃ u v : List Char, (joinSpace l).data = u ++ b.data ++ v := by
  intro l
  induction l with
  | nil => intro b hb; cases hb
  | cons x xs ih =>
    intro b hb
    cases xs with
    | nil =>
      rw [List.mem_singleton] at hb
      subst hb
      exact ⟨[], [], by simp [joinSpace]⟩
    | cons y ys =>
      rcases List.mem_cons.mp hb with hbx | hbm
      · subst hbx
        exact ⟨[], (" " ++ joinSpace (y :: ys)).data, by simp [joinSpace]⟩
      · obtain ⟨u, v, hu⟩ := ih b hbm
        refine ⟨(x ++ " ").data ++ u, v, ?_⟩
        rw [joinSpace]
        simp [hu]

/-- C10: for every non-empty confirmed name list, `deleteBranches`
issues exactly one external invocation, whose command string is the
batched force-delete naming all the branches in list order, each
individually wrapped in single quotes (each quoted name occurring
contiguously in the command). -/
theorem c10_single_batched_delete (names : List String) (h : names ≠ []) :
    deleteBranchesCmds names = [deleteCmd names]
    ∧ (deleteBranchesCmds names).length = 1
    ∧ ∀ b ∈ names, ∃ u v : List Char,
        (deleteCmd names).data = u ++ ("'" ++ b ++ "'").data ++ v := by
  refine ⟨by simp [deleteBranchesCmds, h], by simp [deleteBranchesCmds, h], fun b hb => ?_⟩
  obtain ⟨u, v, hu⟩ :=
    joinSpace_mem_infix (names.map quoteArg) (quoteArg b) (List.mem_map_of_mem _ hb)
  refine ⟨"git branch -D ".data ++ u, v, ?_⟩
  rw [deleteCmd]
  simp [hu, quoteArg]

/-- C10 witness: the two-name list yields the one batched command with
both quoted names inside it. -/
theorem c10_witness :
    deleteBranchesCmds ["alpha", "beta"] = [deleteCmd ["alpha", "beta"]]
    ∧ (deleteBranchesCmds ["alpha", "beta"]).length = 1
    ∧ ∃ u v : List Char,
        (deleteCmd ["alpha", "beta"]).data = u ++ ("'" ++ "alpha" ++ "'").data ++ v :=
  ⟨(c10_single_batched_delete ["alpha", "beta"] (by decide)).1,
   (c10_single_batched_delete ["alpha", "beta"] (by decide)).2.1,
   (c10_single_batched_delete ["alpha", "beta"] (by decide)).2.2 "alpha" (by decide)⟩

/-- C5 (counterexample): a filesystem whose only `.git` directory sits
at the filesystem root, with the working directory one level below.
The root is on the upward path, so the claim requires `true`, but
`findGitRoot` of `src/git-branch-delete.ts` returns `false`: its loop
guard `dir !== "/"` stops the walk before the root is ever checked. -/
theorem c5_root_counterexample :
    (fun d => d == ([] : List String)) [] = true
    ∧ findGitRoot (fun d => d == ([] : List String)) ["home"] = false := by
  decide

/-- C5 (amended): `findGitRoot` returns `true` iff some directory
strictly below the filesystem root on the upward path from the working
directory contains `.git` (the root itself is never checked), returning
`true` at the first (deepest) match; the older variant
`isGitRepository` also checks the root, returning `true` iff any
directory on the path up to and including the root contains `.git`.
Directories are deepest-first component lists, so the ancestors of
`dir` are its `drop i` suffixes and the root is `drop dir.length`. -/
theorem c5_locator_spec (f : List String → Bool) (dir : List String) :
    (findGitRoot f dir = true ↔ ∃ i, i < dir.length ∧ f (dir.drop i) = true)
    ∧ (isGitRepository f dir = true ↔ ∃ i, i ≤ dir.length ∧ f (dir.drop i) = true) := by
  induction dir with
  | nil =>
    refine ⟨⟨fun h => ?_, fun h => ?_⟩, ⟨fun h => ?_, fun h => ?_⟩⟩
    · simp [findGitRoot] at h
    · obtain ⟨i, hi, _⟩ := h
      simp at hi
    · exact ⟨0, Nat.le_refl 0, by simpa [isGitRepository] using h⟩
    · obtain ⟨i, hi, hf⟩ := h
      rw [List.length_nil, Nat.le_zero] at hi
      subst hi
      simpa [isGitRepository] using hf
  | cons d rest ih =>
    obtain ⟨ih1, ih2⟩ := ih
    by_cases hf : f (d :: rest) = true
    · refine ⟨⟨fun _ => ⟨0, by simp, hf⟩, fun _ => by simp [findGitRoot, hf]⟩,
        ⟨fun _ => ⟨0, by simp, hf⟩, fun _ => by simp [isGitRepository, hf]⟩⟩
    · have hf' : f (d :: rest) = false := by
        simpa using hf
      constructor
      · constructor
        · intro h
          rw [findGitRoot, if_neg (by simp [hf'])] at h
          obtain ⟨i, hi, hfi⟩ := ih1.mp h
          exact ⟨i + 1, by simpa using hi, by simpa using hfi⟩
        · rintro ⟨i, hi, hfi⟩
          cases i with
          | zero =>
            rw [List.drop_zero] at hfi
            rw [hf'] at hfi
            cases hfi
          | succ j =>
            have hj : j < rest.length := by simpa using hi
            have hfj : f (rest.drop j) = true := by simpa using hfi
            rw [findGitRoot, if_neg (by simp [hf'])]
            exact ih1.mpr ⟨j, hj, hfj⟩
      · constructor
        · intro h
          rw [isGitRepository, if_neg (by simp [hf'])] at h
          obtain ⟨i, hi, hfi⟩ := ih2.mp h
          exact ⟨i + 1, by simpa using hi, by simpa using hfi⟩
        · rintro ⟨i, hi, hfi⟩
          cases i with
          | zero =>
            rw [List.drop_zero] at hfi
            rw [hf'] at hfi
            cases hfi
          | succ j =>
            have hj : j ≤ rest.length := by simpa using hi
            have hfj : f (rest.drop j) = true := by simpa using hfi
            rw [isGitRepository, if_neg (by simp [hf'])]
            exact ih2.mpr ⟨j, hj, hfj⟩

/-- The current-branch-first comparator is transitive. -/
theorem curLe_trans (a b c : GitBranch) : curLe a b → curLe b c → curLe a c := by
  unfold curLe
  cases a.isCurrent <;> cases b.isCurrent <;> cases c.isCurrent <;> simp

/-- The current-branch-first comparator is total. -/
theorem curLe_total (a b : GitBranch) : curLe a b || curLe b a := by
  unfold curLe
  cases a.isCurrent <;> cases b.isCurrent <;> simp

/-- The doubly sorted list is a permutation of the input listing. -/
theorem sortedBranches_perm (bs : List GitBranch) : List.Perm (sortedBranches bs) bs :=
  (List.mergeSort_perm (bs.mergeSort nameLe) curLe).trans (List.mergeSort_perm bs nameLe)

/-- The doubly sorted list is sorted by the current-branch-first
comparator. -/
theorem sortedBranches_sorted (bs : List GitBranch) :
    (sortedBranches bs).Pairwise fun a b => curLe a b = true :=
  List.sorted_mergeSort (fun a b c => curLe_trans a b c) (fun a b => curLe_total a b) _

/-- For a listing with exactly one current record, the doubly sorted
list starts with that record and everything after it is non-current. -/
theorem sortedBranches_head_current (bs : List GitBranch)
    (hone : bs.countP (·.isCurrent) = 1) :
    ∃ c others, sortedBranches bs = c :: others ∧ c.isCurrent = true ∧
      ∀ b ∈ others, b.isCurrent = false := by
  have hcount : (sortedBranches bs).countP (·.isCurrent) = 1 :=
    ((sortedBranches_perm bs).countP_eq _).trans hone
  cases hs : sortedBranches bs with
  | nil =>
    rw [hs] at hcount
    simp at hcount
  | cons c others =>
    rw [hs] at hcount
    have hsorted := sortedBranches_sorted bs
    rw [hs, List.pairwise_cons] at hsorted
    cases hc : c.isCurrent with
    | true =>
      refine ⟨c, others, rfl, hc, fun b hb => ?_⟩
      rw [List.countP_cons] at hcount
      simp [hc] at hcount
      have := hcount b hb
      simpa using this
    | false =>
      exfalso
      rw [List.countP_cons] at hcount
      simp [hc] at hcount
      obtain ⟨b, hb, hbc⟩ := List.countP_pos_iff.mp (by omega : 0 < others.countP (·.isCurrent))
      have hle := hsorted.1 b hb
      rw [curLe, hc, hbc] at hle
      cases hle

/-- C4: for every listing satisfying the data-model invariants (exactly
one current record, names unique), the choice list built by
`selectBranchNames` consists exactly of the non-current branches — each
choice displays `"name (relative-time)"` and carries the bare name —
every non-current branch's name appears among the choices, and the
current branch's name never does. -/
theorem c4_choices_noncurrent (bs : List GitBranch)
    (hone : bs.countP (·.isCurrent) = 1)
    (hnames : (bs.map (·.name)).Nodup) :
    (∀ ch ∈ selectChoices bs, ∃ b, b ∈ bs ∧ b.isCurrent = false ∧
        ch = ⟨b.name, b.name ++ " (" ++ b.lastCommitRelative ++ ")", b.name⟩)
    ∧ (∀ b ∈ bs, b.isCurrent = false → b.name ∈ (selectChoices bs).map (·.name))
    ∧ (∀ b ∈ bs, b.isCurrent = true → b.name ∉ (selectChoices bs).map (·.name)) := by
  obtain ⟨c, others, hs, hc, hothers⟩ := sortedBranches_head_current bs hone
  have hmem : ∀ x : GitBranch, x ∈ c :: others ↔ x ∈ bs := by
    intro x
    rw [← hs]
    exact (sortedBranches_perm bs).mem_iff
  have hchoices : selectChoices bs =
      others.map fun b => ⟨b.name, b.name ++ " (" ++ b.lastCommitRelative ++ ")", b.name⟩ := by
    unfold selectChoices
    rw [hs]
  refine ⟨fun ch hch => ?_, fun b hb hbc => ?_, fun b hb hbc hmn => ?_⟩
  · rw [hchoices] at hch
    obtain ⟨b, hb, rfl⟩ := List.mem_map.mp hch
    exact ⟨b, (hmem b).mp (List.mem_cons_of_mem _ hb), hothers b hb, rfl⟩
  · have hbs : b ∈ c :: others := (hmem b).mpr hb
    rcases List.mem_cons.mp hbs with hbeq | hbo
    · rw [hbeq, hc] at hbc
      cases hbc
    · rw [hchoices]
      simp only [List.map_map, List.mem_map, Function.comp]
      exact ⟨b, hbo, rfl⟩
  · rw [hchoices] at hmn
    simp only [List.map_map, List.mem_map, Function.comp] at hmn
    obtain ⟨b', hb', hname⟩ := hmn
    have hb'bs : b' ∈ bs := (hmem b').mp (List.mem_cons_of_mem _ hb')
    have hbb : b' = b := List.inj_on_of_nodup_map hnames hb'bs hb hname
    rw [hbb] at hb'
    have := hothers b hb'
    rw [hbc] at this
    cases this

/-- C4 witness: on the two-branch fixture, `feature` is offered and
`main` (the current branch) is not. -/
theorem c4_witness :
    "feature" ∈ (selectChoices listingTwo).map (·.name)
    ∧ "main" ∉ (selectChoices listingTwo).map (·.name) :=
  ⟨(c4_choices_noncurrent listingTwo (by decide) (by decide)).2.1 branchFeature
      (by decide) rfl,
   (c4_choices_noncurrent listingTwo (by decide) (by decide)).2.2 branchMain
      (by decide) rfl⟩
